import Mathlib

/-!
Verification of the search/scoring engine of the Excel record-search tool
(`src/main.py`, class `ExcelSearchTool`).

Python strings are modelled as `List Char`. The similarity kernel used by
`fuzzy_search` is `difflib.SequenceMatcher(None, a, b).ratio()` from the
Python standard library; it is embedded below faithfully, including the
`autojunk` treatment of popular elements (elements occurring more than
`len(b) // 100 + 1` times when `len(b) >= 200`) and the junk-free extension
loops of `find_longest_match`.
-/

/-- Python whitespace characters as used by `str.strip()` and `str.split()`
(space, tab, newline, carriage return, vertical tab, form feed). -/
def isSpaceP (c : Char) : Bool :=
  c = ' ' || c = '\t' || c = '\n' || c = '\r' || c = Char.ofNat 11 || c = Char.ofNat 12

/-- Embeds Python `str.strip()`: drop leading and trailing whitespace. -/
def pyStrip (s : List Char) : List Char :=
  ((s.dropWhile isSpaceP).reverse.dropWhile isSpaceP).reverse

/-- Embeds Python `str.lower()` on the alphabet relevant to the tool
(ASCII case folding). -/
def pyLower (s : List Char) : List Char := s.map Char.toLower

/-- Case normalization as done by the searches: lower-case the string when
`ignore_case` is set, identity otherwise. -/
def normChars (ic : Bool) (s : List Char) : List Char := if ic then pyLower s else s

/-- Does `p` occur at the head of `l`? (helper for Python `in` on strings). -/
def leadMatch : List Char → List Char → Bool
  | [], _ => true
  | _ :: _, [] => false
  | c :: p, d :: l => c = d && leadMatch p l

/-- Embeds Python substring containment `p in l` (true for the empty `p`). -/
def hasSub (p : List Char) : List Char → Bool
  | [] => p.isEmpty
  | d :: l => leadMatch p (d :: l) || hasSub p l

/-! ## difflib.SequenceMatcher

`SequenceMatcher(None, a, b)` builds `b2j`, mapping each element of `b` to
its ascending list of indices, with "popular" elements removed when
`len(b) >= 200` (autojunk).  `find_longest_match` scans rows `i` of `a`,
maintaining the dict `j2len` of diagonal run lengths, keeping the first
longest block, then extends it over equal elements on both ends (the junk
set is empty because `isjunk is None`).  `ratio()` sums the sizes of the
recursively found matching blocks and returns `2*M/T` (`T = len(a)+len(b)`,
defined as `1.0` when `T = 0`). -/

/-- A `(besti, bestj, bestsize)` triple of `find_longest_match`. -/
abbrev Triple := Nat × Nat × Nat

/-- All indices `j` with `b[j] = c`, ascending (the raw `b2j` entry). -/
def jIndices (b : List Char) (c : Char) : List Nat :=
  (List.range b.length).filter (fun j => b.getD j ' ' = c)

/-- The `b2j` mapping of `SequenceMatcher` after autojunk: the entry of a
popular element (more than `len(b)/100 + 1` occurrences, only when
`len(b) >= 200`) is deleted. -/
def b2j (b : List Char) (c : Char) : List Nat :=
  if 200 ≤ b.length ∧ b.length / 100 + 1 < (jIndices b c).length then []
  else jIndices b c

/-- Inner loop of `find_longest_match` for one row `i`: walk the `b2j` entry
(ascending `j`), skip `j < blo`, break at `j ≥ bhi`, set
`newj2len[j] = j2len[j-1] + 1` and track the first longest block. -/
def innerLoop (i blo bhi : Nat) (j2len : Nat → Nat) :
    List Nat → (Nat → Nat) → Triple → ((Nat → Nat) × Triple)
  | [], new, best => (new, best)
  | j :: js, new, best =>
    if j < blo then innerLoop i blo bhi j2len js new best
    else if bhi ≤ j then (new, best)
    else
      let k := (if j = 0 then 0 else j2len (j - 1)) + 1
      innerLoop i blo bhi j2len js
        (fun x => if x = j then k else new x)
        (if best.2.2 < k then (i + 1 - k, j + 1 - k, k) else best)

/-- Outer loop of `find_longest_match` over the rows `i` of `a`; each row
starts from a fresh `newj2len`. -/
def outerLoop (a b : List Char) (blo bhi : Nat) :
    List Nat → (Nat → Nat) → Triple → Triple
  | [], _, best => best
  | i :: is, j2len, best =>
    let p := innerLoop i blo bhi j2len (b2j b (a.getD i ' ')) (fun _ => 0) best
    outerLoop a b blo bhi is p.1 p.2

/-- Left extension loop of `find_longest_match` (the junk set is empty, so
this is `while besti > alo and bestj > blo and a[besti-1] == b[bestj-1]`).
Structural recursion on `besti`. -/
def extendLeft (a b : List Char) (alo blo : Nat) : Nat → Nat → Nat → Triple
  | 0, bj, bs => (0, bj, bs)
  | bi + 1, bj, bs =>
    if alo ≤ bi ∧ blo < bj ∧ a.getD bi ' ' = b.getD (bj - 1) ' ' then
      extendLeft a b alo blo bi (bj - 1) (bs + 1)
    else (bi + 1, bj, bs)

/-- Right extension loop of `find_longest_match`, driven by the gas
`ahi - (besti + bestsize)` so that the recursion is structural; the guard
`besti + bestsize < ahi` is exactly `gas > 0`. -/
def extendRightGas (a b : List Char) (bhi bi bj : Nat) : Nat → Nat → Nat
  | 0, bs => bs
  | gas + 1, bs =>
    if bj + bs < bhi ∧ a.getD (bi + bs) ' ' = b.getD (bj + bs) ' ' then
      extendRightGas a b bhi bi bj gas (bs + 1)
    else bs

/-- Right extension of a best triple. -/
def extendRight (a b : List Char) (ahi bhi : Nat) (t : Triple) : Triple :=
  (t.1, t.2.1, extendRightGas a b bhi t.1 t.2.1 (ahi - (t.1 + t.2.2)) t.2.2)

/-- Embeds `SequenceMatcher.find_longest_match(alo, ahi, blo, bhi)`. -/
def find_longest_match (a b : List Char) (alo ahi blo bhi : Nat) : Triple :=
  extendRight a b ahi bhi
    (extendLeft a b alo blo
      (outerLoop a b blo bhi (List.range' alo (ahi - alo)) (fun _ => 0) (alo, blo, 0)).1
      (outerLoop a b blo bhi (List.range' alo (ahi - alo)) (fun _ => 0) (alo, blo, 0)).2.1
      (outerLoop a b blo bhi (List.range' alo (ahi - alo)) (fun _ => 0) (alo, blo, 0)).2.2)

/-- Total matched characters of `get_matching_blocks`: recursively take the
longest match of the current window and recurse on the windows left and
right of it.  The recursion of the source strictly shrinks the window sum
`(ahi-alo)+(bhi-blo)`, so fuel `len(a)+len(b)+1` never runs out at the
top-level call. -/
def matchesTotal (a b : List Char) : Nat → Nat → Nat → Nat → Nat → Nat
  | 0, _, _, _, _ => 0
  | fuel + 1, alo, ahi, blo, bhi =>
    let t := find_longest_match a b alo ahi blo bhi
    if t.2.2 = 0 then 0
    else
      t.2.2 + (if alo < t.1 ∧ blo < t.2.1 then matchesTotal a b fuel alo t.1 blo t.2.1 else 0)
        + (if t.1 + t.2.2 < ahi ∧ t.2.1 + t.2.2 < bhi then
            matchesTotal a b fuel (t.1 + t.2.2) ahi (t.2.1 + t.2.2) bhi else 0)

/-- `M`: the sum of the sizes of all matching blocks of `a` and `b`. -/
def totalMatches (a b : List Char) : Nat :=
  matchesTotal a b (a.length + b.length + 1) 0 a.length 0 b.length

/-- Embeds `int(SequenceMatcher(None, a, b).ratio() * 100)`:
`_calculate_ratio` returns `2*M/T` for `T = len(a)+len(b) > 0` and `1.0`
when both strings are empty; multiplying by 100 and truncating gives
`200*M/T` rounded down. -/
def ratioFloor100 (a b : List Char) : Nat :=
  if a.length + b.length = 0 then 100
  else 200 * totalMatches a b / (a.length + b.length)


/-- Invariant of the `j2len` dicts: every stored run length fits into the
`b` window above `blo` and is bounded by the number of processed rows. -/
def Pmap (blo cnt : Nat) (m : Nat → Nat) : Prop :=
  ∀ j, m j ≤ cnt ∧ m j ≤ j + 1 - blo

/-- Invariant of best triples: the block lies inside the window. -/
def Pbest (alo ahi blo bhi : Nat) (t : Triple) : Prop :=
  alo ≤ t.1 ∧ t.1 + t.2.2 ≤ ahi ∧ blo ≤ t.2.1 ∧ t.2.1 + t.2.2 ≤ bhi

/-! ## Data model and the three searches

A cell of the loaded DataFrame is either missing (`NaN`, which is what
`pd.read_excel` stores for an empty Excel cell) or carries the string form
of its value; `.astype(str)` maps a missing cell to the literal string
`"nan"` and any other cell to its string form, which the `str` constructor
carries directly.  A row is its list of cells, a DataFrame a list of rows,
and the searched column is addressed by position.  `partial_search` uses
pandas `Series.str.contains`, whose default is regex matching; it is
modelled as literal substring containment, which coincides with it for
every keyword free of regex metacharacters (all keywords appearing in the
claims are). -/

inductive Cell
  | na
  | str (s : List Char)
deriving DecidableEq

abbrev Row := List Cell

/-- The cell of `row` in the searched column (a too-short row reads as a
missing cell). -/
def getCell (r : Row) (col : Nat) : Cell := r.getD col Cell.na

/-- Embeds `.astype(str)` on one cell: `NaN` prints as `"nan"`. -/
def cellToStr : Cell → List Char
  | Cell.na => "nan".toList
  | Cell.str s => s

/-- Embeds `ExcelSearchTool.exact_search` (src/main.py:305-313): keep the
rows (with their original index, as pandas boolean-mask filtering keeps
the index and the order) whose coerced cell equals the keyword, both sides
lower-cased when `ignore_case` is set. -/
def exact_search (ic : Bool) (df : List Row) (col : Nat) (kw : List Char) :
    List (Nat × Row) :=
  df.enum.filter (fun p =>
    normChars ic (cellToStr (getCell p.2 col)) == normChars ic kw)

/-- Embeds `ExcelSearchTool.partial_search` (src/main.py:315-323): keep the
rows whose coerced (and possibly lower-cased) cell contains the keyword as
a substring.  The `na=False` argument of `str.contains` is unreachable
because `.astype(str)` has already replaced `NaN` by `"nan"`. -/
def contains_search (ic : Bool) (df : List Row) (col : Nat) (kw : List Char) :
    List (Nat × Row) :=
  df.enum.filter (fun p =>
    hasSub (normChars ic kw) (normChars ic (cellToStr (getCell p.2 col))))

/-- Embeds the inner `calculate_similarity` of `fuzzy_search`
(src/main.py:327-341): a missing cell scores 0 (`pd.isna` guard), any
other cell is compared with the keyword through
`int(SequenceMatcher(None, keyword, text).ratio() * 100)` after the
case handling. -/
def calculate_similarity (ic : Bool) (kw : List Char) : Cell → Nat
  | Cell.na => 0
  | Cell.str s => ratioFloor100 (normChars ic kw) (normChars ic s)

/-- The basic similarity `sequence_ratio(a, b)` of the spec: the scoring
core of `calculate_similarity` applied to two strings (the case handling
followed by the `SequenceMatcher` ratio scaled to 0-100 and truncated). -/
def basicSimilarity (ic : Bool) (a b : List Char) : Nat :=
  ratioFloor100 (normChars ic a) (normChars ic b)

/-- A fuzzy result row: original index, the row, and the `類似度` score
column appended by `fuzzy_search`. -/
abbrev ScoredRow := Nat × Row × Nat

/-- The score column of a fuzzy result row. -/
def scoreOf (x : ScoredRow) : Nat := x.2.2

/-- Embeds the scan loop of `fuzzy_search` (src/main.py:343-358): walk the
rows in order, keep index, row and score whenever `score >= threshold`. -/
def fuzzyMatches (ic : Bool) (df : List Row) (col : Nat) (kw : List Char) (t : Nat) :
    List ScoredRow :=
  df.enum.filterMap (fun p =>
    if t ≤ calculate_similarity ic kw (getCell p.2 col) then
      some (p.1, p.2, calculate_similarity ic kw (getCell p.2 col))
    else none)

/-- Adjacent rows are in weakly descending score order. -/
def descByScore (x y : ScoredRow) : Prop := scoreOf y ≤ scoreOf x

instance : DecidableRel descByScore := fun x y => Nat.decLe (scoreOf y) (scoreOf x)

/-- Embeds `results.sort_values('類似度', ascending=False)`
(src/main.py:359) with its default `kind='quicksort'`: pandas guarantees
that the output is a permutation of the input ordered by descending key,
and documents that only `kind='mergesort'` or `kind='stable'` preserve the
order of ties, so the contract of the call is exactly this relation. -/
def SortValuesDesc (l out : List ScoredRow) : Prop :=
  List.Perm out l ∧ List.Sorted descByScore out

/-- The ordering claim C1 makes on fuzzy results: strictly greater score
first, and ascending original index among equal scores. -/
def claimTieOrder (x y : ScoredRow) : Prop :=
  scoreOf y < scoreOf x ∨ (scoreOf x = scoreOf y ∧ x.1 < y.1)

instance : DecidableRel claimTieOrder := fun x y =>
  inferInstanceAs (Decidable (scoreOf y < scoreOf x ∨ (scoreOf x = scoreOf y ∧ x.1 < y.1)))

/-- Embeds `ExcelSearchTool.fuzzy_search` (src/main.py:325-361) as a
relation between its inputs and any result the sorting contract allows. -/
def FuzzyResult (ic : Bool) (df : List Row) (col : Nat) (kw : List Char) (t : Nat)
    (out : List ScoredRow) : Prop :=
  SortValuesDesc (fuzzyMatches ic df col kw t) out

/-! ## The advanced composite score

`advanced_fuzzy_search` (src/main.py:363-394) is the standalone scorer:
empty-string guard, case handling, exact match 100, substring containment
85, otherwise `int(max(seq_ratio * 100, word_ratio * 100))` where
`seq_ratio` is the `SequenceMatcher` ratio and `word_ratio` the Jaccard
overlap of the whitespace-token sets.  Real arithmetic is modelled
exactly with rationals. -/

/-- Whitespace tokens of a string, as Python `str.split()` yields them. -/
def wordsOf (s : List Char) : List (List Char) :=
  (s.splitOnP isSpaceP).filter (fun w => w ≠ [])

/-- Python `set(s.split())`. -/
def wordSetOf (s : List Char) : Finset (List Char) := (wordsOf s).toFinset

/-- The `SequenceMatcher` ratio `2*M/T` as an exact rational
(`_calculate_ratio` returns `1.0` when both strings are empty). -/
def ratioQ (a b : List Char) : ℚ :=
  if a.length + b.length = 0 then 1
  else 2 * (totalMatches a b : ℚ) / ((a.length : ℚ) + (b.length : ℚ))

/-- The Jaccard word-overlap ratio of `advanced_fuzzy_search`: 0 when
either token set is empty, else `|intersection| / |union|`. -/
def wordScoreQ (k t : List Char) : ℚ :=
  if wordSetOf k = ∅ ∨ wordSetOf t = ∅ then 0
  else ((wordSetOf k ∩ wordSetOf t).card : ℚ) / ((wordSetOf k ∪ wordSetOf t).card : ℚ)

/-- Embeds `ExcelSearchTool.advanced_fuzzy_search` (src/main.py:363-394).
The guard `if not text or not keyword: return 0` fires before any other
step; `int(...)` truncates the nonnegative final score. -/
def advanced_fuzzy_search (ic : Bool) (keyword text : List Char) : Nat :=
  if text = [] ∨ keyword = [] then 0
  else
    let k := normChars ic keyword
    let t := normChars ic text
    if k = t then 100
    else if hasSub k t ∨ hasSub t k then 85
    else Nat.floor (max (ratioQ k t * 100) (wordScoreQ k t * 100))

/-- Model of claim C6 exactly as worded: after case normalization, equal
strings score 100, substring containment scores 85, and otherwise the
score is the floor of the larger of the sequence-matching ratio and the
Jaccard token-overlap ratio, each scaled to 0-100.  The claim mentions no
empty-string guard. -/
def compositeScoreClaimC6 (ic : Bool) (keyword text : List Char) : Nat :=
  let k := normChars ic keyword
  let t := normChars ic text
  if k = t then 100
  else if hasSub k t ∨ hasSub t k then 85
  else Nat.floor (max (ratioQ k t * 100) (wordScoreQ k t * 100))

/-! ## The search orchestrator

`execute_search` (src/main.py:261-303) guards: no loaded DataFrame, then
empty keyword after `strip()` (each aborts with a message box and no
scan), then dispatches on the mode radio button value, passing the
stripped keyword, and stores the result in `self.search_results`.  The
state carries the fields of `self` that the method reads or writes with
search-relevant content; the GUI status line and listbox rendering are
orchestration.  Because the fuzzy branch ends in the sorting contract,
the whole method is a relation from the pre-state to the pair of
post-state and outcome. -/

inductive SearchResults
  | plain (rows : List (Nat × Row))
  | scored (rows : List ScoredRow)
deriving DecidableEq

inductive ValidationError
  | noData
  | emptyKeyword
deriving DecidableEq

structure ToolState where
  df : Option (List Row)
  searchResults : Option SearchResults
deriving DecidableEq

/-- The three values of the mode radio group: `"exact"`, `"partial"`,
`"fuzzy"` (the `contains` constructor stands for `"partial"`). -/
inductive Mode
  | exact
  | contains
  | fuzzy
deriving DecidableEq

/-- The state after `self.search_results = ...`. -/
def withResults (s : ToolState) (r : SearchResults) : ToolState :=
  { s with searchResults := some r }

inductive ExecuteSearch (col : Nat) (kw : List Char) (ic : Bool) (t : Nat) :
    Mode → ToolState → ToolState × Except ValidationError SearchResults → Prop
  | noData (m : Mode) (s : ToolState) :
      s.df = none →
      ExecuteSearch col kw ic t m s (s, Except.error ValidationError.noData)
  | emptyKw (m : Mode) (s : ToolState) (d : List Row) :
      s.df = some d → pyStrip kw = [] →
      ExecuteSearch col kw ic t m s (s, Except.error ValidationError.emptyKeyword)
  | exactMode (s : ToolState) (d : List Row) :
      s.df = some d → pyStrip kw ≠ [] →
      ExecuteSearch col kw ic t Mode.exact s
        (withResults s (SearchResults.plain (exact_search ic d col (pyStrip kw))),
          Except.ok (SearchResults.plain (exact_search ic d col (pyStrip kw))))
  | containsMode (s : ToolState) (d : List Row) :
      s.df = some d → pyStrip kw ≠ [] →
      ExecuteSearch col kw ic t Mode.contains s
        (withResults s (SearchResults.plain (contains_search ic d col (pyStrip kw))),
          Except.ok (SearchResults.plain (contains_search ic d col (pyStrip kw))))
  | fuzzyMode (s : ToolState) (d : List Row) (out : List ScoredRow) :
      s.df = some d → pyStrip kw ≠ [] →
      FuzzyResult ic d col (pyStrip kw) t out →
      ExecuteSearch col kw ic t Mode.fuzzy s
        (withResults s (SearchResults.scored out),
          Except.ok (SearchResults.scored out))
/-! ## Bounds of the matcher

The key arithmetic fact behind the `[0, 100]` range claims: the matched
blocks found by the recursion are disjoint in both strings, so the matched
total is at most the length of either window. -/

theorem innerLoop_inv (alo ahi blo bhi i cnt : Nat) (m : Nat → Nat)
    (hm : Pmap blo cnt m) (hia : alo ≤ i) (hih : i < ahi) (hc : cnt ≤ i - alo) :
    ∀ (js : List Nat) (new : Nat → Nat) (best : Triple),
      Pmap blo (cnt + 1) new → Pbest alo ahi blo bhi best →
      Pmap blo (cnt + 1) (innerLoop i blo bhi m js new best).1 ∧
      Pbest alo ahi blo bhi (innerLoop i blo bhi m js new best).2 := by
  intro js
  induction js with
  | nil => intro new best hn hb; exact ⟨hn, hb⟩
  | cons j js ih =>
    intro new best hn hb
    simp only [innerLoop]
    by_cases h1 : j < blo
    · rw [if_pos h1]
      exact ih new best hn hb
    · rw [if_neg h1]
      by_cases h2 : bhi ≤ j
      · rw [if_pos h2]
        exact ⟨hn, hb⟩
      · rw [if_neg h2]
        have hjlo : blo ≤ j := Nat.le_of_not_lt h1
        have hjhi : j < bhi := Nat.lt_of_not_le h2
        have hm1 := (hm (j - 1)).1
        have hm2 := (hm (j - 1)).2
        apply ih
        · intro x
          simp only []
          by_cases hx : x = j
          · rw [if_pos hx]
            subst hx
            constructor
            · split <;> omega
            · split <;> omega
          · rw [if_neg hx]
            exact hn x
        · obtain ⟨hbp1, hbp2, hbp3, hbp4⟩ := hb
          by_cases hbs : best.2.2 < (if j = 0 then 0 else m (j - 1)) + 1
          · rw [if_pos hbs]
            refine ⟨?_, ?_, ?_, ?_⟩
            · show alo ≤ i + 1 - ((if j = 0 then 0 else m (j - 1)) + 1)
              split <;> omega
            · show i + 1 - ((if j = 0 then 0 else m (j - 1)) + 1)
                + ((if j = 0 then 0 else m (j - 1)) + 1) ≤ ahi
              split <;> omega
            · show blo ≤ j + 1 - ((if j = 0 then 0 else m (j - 1)) + 1)
              split <;> omega
            · show j + 1 - ((if j = 0 then 0 else m (j - 1)) + 1)
                + ((if j = 0 then 0 else m (j - 1)) + 1) ≤ bhi
              split <;> omega
          · rw [if_neg hbs]
            exact ⟨hbp1, hbp2, hbp3, hbp4⟩

theorem outerLoop_inv (a b : List Char) (alo ahi blo bhi : Nat) :
    ∀ (n i0 cnt : Nat) (m : Nat → Nat) (best : Triple),
      alo ≤ i0 → i0 + n ≤ ahi → cnt ≤ i0 - alo → Pmap blo cnt m →
      Pbest alo ahi blo bhi best →
      Pbest alo ahi blo bhi (outerLoop a b blo bhi (List.range' i0 n) m best) := by
  intro n
  induction n with
  | zero => intro i0 cnt m best _ _ _ _ hb; simpa [outerLoop] using hb
  | succ n ih =>
    intro i0 cnt m best h1 h2 h3 hm hb
    have step := innerLoop_inv alo ahi blo bhi i0 cnt m hm h1 (by omega) h3
      (b2j b (a.getD i0 ' ')) (fun _ => 0) best
      (fun x => ⟨Nat.zero_le _, Nat.zero_le _⟩) hb
    simpa [List.range', outerLoop] using
      ih (i0 + 1) (cnt + 1) _ _ (by omega) (by omega) (by omega) step.1 step.2

theorem extendLeft_inv (a b : List Char) (alo ahi blo bhi : Nat) :
    ∀ (bi bj bs : Nat), Pbest alo ahi blo bhi (bi, bj, bs) →
      Pbest alo ahi blo bhi (extendLeft a b alo blo bi bj bs) := by
  intro bi
  induction bi with
  | zero => intro bj bs hb; simpa [extendLeft] using hb
  | succ bi ih =>
    intro bj bs hb
    have h1 : alo ≤ bi + 1 := hb.1
    have h2 : bi + 1 + bs ≤ ahi := hb.2.1
    have h3 : blo ≤ bj := hb.2.2.1
    have h4 : bj + bs ≤ bhi := hb.2.2.2
    simp only [extendLeft]
    by_cases h : alo ≤ bi ∧ blo < bj ∧ a.getD bi ' ' = b.getD (bj - 1) ' '
    · rw [if_pos h]
      apply ih
      refine ⟨?_, ?_, ?_, ?_⟩
      · show alo ≤ bi
        omega
      · show bi + (bs + 1) ≤ ahi
        omega
      · show blo ≤ bj - 1
        omega
      · show bj - 1 + (bs + 1) ≤ bhi
        omega
    · rw [if_neg h]
      exact ⟨h1, h2, h3, h4⟩

theorem extendRightGas_le (a b : List Char) (bhi bi bj : Nat) :
    ∀ (gas bs : Nat), extendRightGas a b bhi bi bj gas bs ≤ bs + gas := by
  intro gas
  induction gas with
  | zero =>
    intro bs
    simp [extendRightGas]
  | succ gas ih =>
    intro bs
    simp only [extendRightGas]
    by_cases h : bj + bs < bhi ∧ a.getD (bi + bs) ' ' = b.getD (bj + bs) ' '
    · rw [if_pos h]
      have := ih (bs + 1)
      omega
    · rw [if_neg h]
      omega

theorem extendRightGas_bhi (a b : List Char) (bhi bi bj : Nat) :
    ∀ (gas bs : Nat), bj + bs ≤ bhi →
      bj + extendRightGas a b bhi bi bj gas bs ≤ bhi := by
  intro gas
  induction gas with
  | zero =>
    intro bs h
    simpa [extendRightGas] using h
  | succ gas ih =>
    intro bs h
    simp only [extendRightGas]
    by_cases hg : bj + bs < bhi ∧ a.getD (bi + bs) ' ' = b.getD (bj + bs) ' '
    · rw [if_pos hg]
      exact ih (bs + 1) (by omega)
    · rw [if_neg hg]
      exact h

theorem extendRight_inv (a b : List Char) (alo ahi blo bhi : Nat) (t : Triple)
    (hb : Pbest alo ahi blo bhi t) : Pbest alo ahi blo bhi (extendRight a b ahi bhi t) := by
  obtain ⟨bi, bj, bs⟩ := t
  have h1 : alo ≤ bi := hb.1
  have h2 : bi + bs ≤ ahi := hb.2.1
  have h3 : blo ≤ bj := hb.2.2.1
  have h4 : bj + bs ≤ bhi := hb.2.2.2
  have hle := extendRightGas_le a b bhi bi bj (ahi - (bi + bs)) bs
  have hbb := extendRightGas_bhi a b bhi bi bj (ahi - (bi + bs)) bs h4
  refine ⟨?_, ?_, ?_, ?_⟩
  · show alo ≤ bi
    omega
  · show bi + extendRightGas a b bhi bi bj (ahi - (bi + bs)) bs ≤ ahi
    omega
  · show blo ≤ bj
    omega
  · show bj + extendRightGas a b bhi bi bj (ahi - (bi + bs)) bs ≤ bhi
    omega

theorem find_longest_match_inv (a b : List Char) (alo ahi blo bhi : Nat)
    (h1 : alo ≤ ahi) (h2 : blo ≤ bhi) :
    Pbest alo ahi blo bhi (find_longest_match a b alo ahi blo bhi) := by
  have houter : Pbest alo ahi blo bhi
      (outerLoop a b blo bhi (List.range' alo (ahi - alo)) (fun _ => 0) (alo, blo, 0)) :=
    outerLoop_inv a b alo ahi blo bhi (ahi - alo) alo 0 (fun _ => 0) (alo, blo, 0)
      (Nat.le_refl alo) (by omega) (by omega)
      (fun x => ⟨Nat.zero_le _, Nat.zero_le _⟩)
      ⟨Nat.le_refl alo, by simpa using h1, Nat.le_refl blo, by simpa using h2⟩
  have hleft := extendLeft_inv a b alo ahi blo bhi
    (outerLoop a b blo bhi (List.range' alo (ahi - alo)) (fun _ => 0) (alo, blo, 0)).1
    (outerLoop a b blo bhi (List.range' alo (ahi - alo)) (fun _ => 0) (alo, blo, 0)).2.1
    (outerLoop a b blo bhi (List.range' alo (ahi - alo)) (fun _ => 0) (alo, blo, 0)).2.2
    houter
  exact extendRight_inv a b alo ahi blo bhi _ hleft

theorem matchesTotal_le (a b : List Char) :
    ∀ (fuel alo ahi blo bhi : Nat), alo ≤ ahi → blo ≤ bhi →
      matchesTotal a b fuel alo ahi blo bhi ≤ min (ahi - alo) (bhi - blo) := by
  intro fuel
  induction fuel with
  | zero => intro alo ahi blo bhi _ _; simp [matchesTotal]
  | succ fuel ih =>
    intro alo ahi blo bhi h1 h2
    have hbest := find_longest_match_inv a b alo ahi blo bhi h1 h2
    simp only [matchesTotal]
    set t := find_longest_match a b alo ahi blo bhi with ht
    have hb1 : alo ≤ t.1 := hbest.1
    have hb2 : t.1 + t.2.2 ≤ ahi := hbest.2.1
    have hb3 : blo ≤ t.2.1 := hbest.2.2.1
    have hb4 : t.2.1 + t.2.2 ≤ bhi := hbest.2.2.2
    by_cases hk : t.2.2 = 0
    · rw [if_pos hk]
      omega
    · rw [if_neg hk]
      have hL : (if alo < t.1 ∧ blo < t.2.1 then matchesTotal a b fuel alo t.1 blo t.2.1
          else 0) ≤ t.1 - alo ∧
          (if alo < t.1 ∧ blo < t.2.1 then matchesTotal a b fuel alo t.1 blo t.2.1
          else 0) ≤ t.2.1 - blo := by
        split
        · have h := ih alo t.1 blo t.2.1 (by omega) (by omega)
          omega
        · omega
      have hR : (if t.1 + t.2.2 < ahi ∧ t.2.1 + t.2.2 < bhi then
            matchesTotal a b fuel (t.1 + t.2.2) ahi (t.2.1 + t.2.2) bhi else 0)
            ≤ ahi - (t.1 + t.2.2) ∧
          (if t.1 + t.2.2 < ahi ∧ t.2.1 + t.2.2 < bhi then
            matchesTotal a b fuel (t.1 + t.2.2) ahi (t.2.1 + t.2.2) bhi else 0)
            ≤ bhi - (t.2.1 + t.2.2) := by
        split
        · have h := ih (t.1 + t.2.2) ahi (t.2.1 + t.2.2) bhi (by omega) (by omega)
          omega
        · omega
      omega

theorem totalMatches_le_min (a b : List Char) :
    totalMatches a b ≤ min a.length b.length := by
  have h := matchesTotal_le a b (a.length + b.length + 1) 0 a.length 0 b.length
    (by omega) (by omega)
  simpa [totalMatches] using h

theorem ratioFloor100_le_100 (a b : List Char) : ratioFloor100 a b ≤ 100 := by
  unfold ratioFloor100
  split
  · omega
  · rename_i hT
    have hM := totalMatches_le_min a b
    have h2M : 200 * totalMatches a b ≤ 100 * (a.length + b.length) := by omega
    calc 200 * totalMatches a b / (a.length + b.length)
        ≤ 100 * (a.length + b.length) / (a.length + b.length) :=
          Nat.div_le_div_right h2M
      _ = 100 := Nat.mul_div_cancel 100 (by omega)

theorem totalMatches_nil_left (b : List Char) : totalMatches [] b = 0 := by
  have h := totalMatches_le_min [] b
  simp only [List.length_nil] at h
  omega

theorem totalMatches_nil_right (a : List Char) : totalMatches a [] = 0 := by
  have h := totalMatches_le_min a []
  simp only [List.length_nil] at h
  omega

theorem ratioFloor100_nil_right (a : List Char) :
    ratioFloor100 a [] = if a = [] then 100 else 0 := by
  by_cases h : a = []
  · subst h; rfl
  · have hl : a.length ≠ 0 := by simpa [List.length_eq_zero] using h
    simp [ratioFloor100, h, hl, totalMatches_nil_right]

theorem ratioFloor100_nil_left (b : List Char) :
    ratioFloor100 [] b = if b = [] then 100 else 0 := by
  by_cases h : b = []
  · subst h; rfl
  · have hl : b.length ≠ 0 := by simpa [List.length_eq_zero] using h
    simp [ratioFloor100, h, hl, totalMatches_nil_left]

/-! ## Helper lemmas about normalization and similarity -/

theorem normChars_nil (ic : Bool) : normChars ic [] = [] := by
  cases ic <;> simp [normChars, pyLower]

theorem normChars_eq_nil (ic : Bool) (s : List Char) :
    normChars ic s = [] ↔ s = [] := by
  cases ic <;> simp [normChars, pyLower]

theorem basicSimilarity_le_100 (ic : Bool) (a b : List Char) :
    basicSimilarity ic a b ≤ 100 :=
  ratioFloor100_le_100 _ _

theorem calculate_similarity_eq (ic : Bool) (kw : List Char) (s : List Char) :
    calculate_similarity ic kw (Cell.str s) = basicSimilarity ic kw s := rfl

theorem calculate_similarity_le_100 (ic : Bool) (kw : List Char) (c : Cell) :
    calculate_similarity ic kw c ≤ 100 := by
  cases c
  · simp [calculate_similarity]
  · exact ratioFloor100_le_100 _ _

theorem mem_fuzzyMatches (ic : Bool) (df : List Row) (col : Nat) (kw : List Char)
    (t : Nat) (i : Nat) (r : Row) (s : Nat) :
    (i, r, s) ∈ fuzzyMatches ic df col kw t ↔
      ((i, r) ∈ df.enum ∧ s = calculate_similarity ic kw (getCell r col) ∧ t ≤ s) := by
  simp only [fuzzyMatches, List.mem_filterMap]
  constructor
  · rintro ⟨⟨pi, pr⟩, hp, heq⟩
    by_cases hc : t ≤ calculate_similarity ic kw (getCell pr col)
    · rw [if_pos hc] at heq
      simp only [Option.some.injEq, Prod.mk.injEq] at heq
      obtain ⟨h1, h2, h3⟩ := heq
      subst h1; subst h2; subst h3
      exact ⟨hp, rfl, hc⟩
    · rw [if_neg hc] at heq
      exact absurd heq (by simp)
  · rintro ⟨hp, hs, ht⟩
    subst hs
    exact ⟨(i, r), hp, by rw [if_pos ht]⟩

/-! ## The claims -/

/-- C3 counterexample: on two empty strings the basic similarity of the
code is 100, not 0 — `difflib._calculate_ratio` returns `1.0` when
`len(a) + len(b) == 0`, and `int(1.0 * 100) = 100`. -/
theorem C3_counterexample_empty_empty :
    basicSimilarity true [] [] = 100 ∧ basicSimilarity true [] [] ≠ 0 := by
  constructor <;> decide

/-- C3 (amended): for all strings and either case setting, the basic
similarity is an integer in [0, 100] (it is a `Nat`, so only the upper
bound is stated) and is computed without raising; if exactly one of the
two strings is empty it is 0; if both are empty it is 100. -/
theorem C3_range_and_empty_policy (ic : Bool) (a b : List Char) :
    basicSimilarity ic a b ≤ 100
    ∧ basicSimilarity ic a [] = (if a = [] then 100 else 0)
    ∧ basicSimilarity ic [] b = (if b = [] then 100 else 0) := by
  refine ⟨ratioFloor100_le_100 _ _, ?_, ?_⟩
  · simp only [basicSimilarity, normChars_nil, ratioFloor100_nil_right]
    by_cases h : a = [] <;> simp [h, normChars_eq_nil]
  · simp only [basicSimilarity, normChars_nil, ratioFloor100_nil_left]
    by_cases h : b = [] <;> simp [h, normChars_eq_nil]

/-- C4 counterexample: the basic similarity is not symmetric.  With the
tool's default case-insensitive setting, "abcdb" vs "cdab" scores 44 while
"cdab" vs "abcdb" scores 66: the first longest block the matcher keeps
("ab" vs "cd") differs between the two argument orders, and the leftover
windows match differently. -/
theorem C4_counterexample_asymmetric :
    basicSimilarity true ("abcdb".toList) ("cdab".toList) = 44
    ∧ basicSimilarity true ("cdab".toList) ("abcdb".toList) = 66 := by
  constructor <;> decide

/-- C4 (amended): symmetry of the basic similarity holds when the two
strings are equal or when either of them is empty, but not in general. -/
theorem C4_symmetry_special_cases (ic : Bool) (a b : List Char)
    (h : a = b ∨ a = [] ∨ b = []) :
    basicSimilarity ic a b = basicSimilarity ic b a := by
  rcases h with h | h | h
  · subst h; rfl
  · subst h
    simp only [basicSimilarity, normChars_nil, ratioFloor100_nil_left,
      ratioFloor100_nil_right]
  · subst h
    simp only [basicSimilarity, normChars_nil, ratioFloor100_nil_left,
      ratioFloor100_nil_right]

/-- C4 witness: the amended symmetry applied at "x" vs the empty string. -/
theorem C4_symmetry_witness :
    basicSimilarity true ("x".toList) [] = basicSimilarity true [] ("x".toList) :=
  C4_symmetry_special_cases true ("x".toList) [] (Or.inr (Or.inr rfl))

/-- C6 counterexample: at keyword "" and text "a", the composite score as
worded by the claim returns 85 (the empty string is a contiguous substring
of "a"), while the code returns 0 because of its
`if not text or not keyword: return 0` guard. -/
theorem C6_counterexample_empty_keyword :
    compositeScoreClaimC6 false [] ("a".toList) = 85
    ∧ advanced_fuzzy_search false [] ("a".toList) = 0 := by
  constructor <;> rfl

/-- C6 (amended): with an empty-string guard added in front — the code
returns 0 whenever either input is empty, before any normalization — the
claimed piecewise composite score describes `advanced_fuzzy_search`
exactly, for all strings and either case setting. -/
theorem C6_advanced_matches_claim_with_guard (ic : Bool) (keyword text : List Char) :
    advanced_fuzzy_search ic keyword text =
      if text = [] ∨ keyword = [] then 0 else compositeScoreClaimC6 ic keyword text := by
  by_cases h : text = [] ∨ keyword = [] <;>
    simp [advanced_fuzzy_search, compositeScoreClaimC6, h]

/-- C7: `exact_search` keeps exactly those rows whose coerced cell equals
the keyword after normalization (both operands lower-cased iff the
case-insensitive setting is on, identity otherwise); the result is a
sublist of the enumerated dataset, so returned rows keep the original
ascending-index dataset order, and they carry no score: they are the
unchanged index-row pairs themselves. -/
theorem C7_exact_search_characterization (ic : Bool) (df : List Row) (col : Nat)
    (kw : List Char) :
    (exact_search ic df col kw).Sublist df.enum
    ∧ ∀ i r, ((i, r) ∈ exact_search ic df col kw ↔
        ((i, r) ∈ df.enum
          ∧ normChars ic (cellToStr (getCell r col)) = normChars ic kw)) := by
  constructor
  · exact List.filter_sublist _
  · intro i r
    simp [exact_search, List.mem_filter]

/-- C2 (code bug): a PartialMatch over a dataset whose single row has a
missing cell DOES return that row for keyword "nan", under either case
setting — `.astype(str)` coerces `NaN` to the string "nan" before
`str.contains` runs, so the `na=False` argument meant to exclude missing
cells never applies — contradicting the claim that missing cells are never
included. -/
theorem C2_null_cell_matches_contains :
    contains_search true [[Cell.na]] 0 ("nan".toList) = [(0, [Cell.na])]
    ∧ contains_search false [[Cell.na]] 0 ("nan".toList) = [(0, [Cell.na])] := by
  constructor <;> rfl

/-- C10: a missing cell is coerced to the literal string "nan" by
`.astype(str)`, so a null cell does match: in ExactMatch for keyword "nan"
under either case setting, and in PartialMatch for substrings of "nan"
such as "na" or "a". -/
theorem C10_nan_coercion_matches :
    cellToStr Cell.na = "nan".toList
    ∧ exact_search true [[Cell.na]] 0 ("nan".toList) = [(0, [Cell.na])]
    ∧ exact_search false [[Cell.na]] 0 ("nan".toList) = [(0, [Cell.na])]
    ∧ contains_search true [[Cell.na]] 0 ("na".toList) = [(0, [Cell.na])]
    ∧ contains_search false [[Cell.na]] 0 ("a".toList) = [(0, [Cell.na])] :=
  ⟨rfl, rfl, rfl, rfl, rfl⟩

/-- C5: any output of a FuzzyMatch search contains the row at index `i`
with score `s` iff that row is in the dataset, `s` is its similarity
against the keyword, and `s >= threshold`; every returned row thus carries
its score, which lies in [threshold, 100]; and a row whose cell is missing
scores 0 (the `pd.isna` guard — computed without raising), so it is never
returned when the threshold is positive. -/
theorem C5_fuzzy_membership (ic : Bool) (df : List Row) (col : Nat) (kw : List Char)
    (t : Nat) (out : List ScoredRow) (h : FuzzyResult ic df col kw t out)
    (i : Nat) (r : Row) (s : Nat) :
    ((i, r, s) ∈ out ↔
      ((i, r) ∈ df.enum ∧ s = calculate_similarity ic kw (getCell r col) ∧ t ≤ s))
    ∧ ((i, r, s) ∈ out → t ≤ s ∧ s ≤ 100)
    ∧ (getCell r col = Cell.na → 1 ≤ t → (i, r, s) ∉ out) := by
  have hmem : (i, r, s) ∈ out ↔ (i, r, s) ∈ fuzzyMatches ic df col kw t :=
    h.1.mem_iff
  rw [hmem, mem_fuzzyMatches]
  refine ⟨Iff.rfl, ?_, ?_⟩
  · rintro ⟨hp, hs, ht⟩
    refine ⟨ht, ?_⟩
    subst hs
    exact calculate_similarity_le_100 ic kw (getCell r col)
  · rintro hna h1t ⟨hp, hs, ht⟩
    rw [hna] at hs
    simp [calculate_similarity] at hs
    omega

/-- C5 witness: the characterization at a concrete two-row dataset whose
second row has a missing cell, keyword "ab", threshold 80. -/
theorem C5_fuzzy_membership_witness :
    ((0, [Cell.str ("ab".toList)], 100) ∈
        fuzzyMatches true [[Cell.str ("ab".toList)], [Cell.na]] 0 ("ab".toList) 80 ↔
      ((0, [Cell.str ("ab".toList)]) ∈
          ([[Cell.str ("ab".toList)], [Cell.na]] : List Row).enum
        ∧ 100 = calculate_similarity true ("ab".toList)
            (getCell [Cell.str ("ab".toList)] 0)
        ∧ 80 ≤ 100))
    ∧ (((0, [Cell.str ("ab".toList)], 100) : ScoredRow) ∈
        fuzzyMatches true [[Cell.str ("ab".toList)], [Cell.na]] 0 ("ab".toList) 80 →
        80 ≤ 100 ∧ 100 ≤ 100)
    ∧ (getCell [Cell.str ("ab".toList)] 0 = Cell.na → 1 ≤ 80 →
        ((0, [Cell.str ("ab".toList)], 100) : ScoredRow) ∉
          fuzzyMatches true [[Cell.str ("ab".toList)], [Cell.na]] 0 ("ab".toList) 80) :=
  C5_fuzzy_membership true [[Cell.str ("ab".toList)], [Cell.na]] 0 ("ab".toList) 80
    (fuzzyMatches true [[Cell.str ("ab".toList)], [Cell.na]] 0 ("ab".toList) 80)
    ⟨List.Perm.refl _, by decide⟩ 0 [Cell.str ("ab".toList)] 100

/-- C1 (code bug): the contract of the sorting call of `fuzzy_search`
(`sort_values('類似度', ascending=False)` with its unstable default
`kind='quicksort'`) admits an output in which two rows tied at score 100
appear in descending original-index order, violating the claimed stable
ascending-index ordering of ties. -/
theorem C1_sort_contract_allows_tie_reversal :
    FuzzyResult true
      [[Cell.str ("ab".toList)], [Cell.str ("ab".toList)]] 0 ("ab".toList) 80
      [(1, [Cell.str ("ab".toList)], 100), (0, [Cell.str ("ab".toList)], 100)]
    ∧ ¬ List.Sorted claimTieOrder
        [(1, [Cell.str ("ab".toList)], 100), (0, [Cell.str ("ab".toList)], 100)] := by
  refine ⟨⟨?_, ?_⟩, ?_⟩
  · decide
  · decide
  · decide

/-- C8: when the keyword is empty or whitespace-only after `strip()`, the
only outcome `execute_search` allows on a loaded dataset is the empty
keyword validation failure with the state unchanged — it happens in every
mode, before any row is visited, and no (empty) result set is produced. -/
theorem C8_empty_keyword_fails_fast (col : Nat) (kw : List Char) (ic : Bool)
    (t : Nat) (m : Mode) (s : ToolState) (d : List Row)
    (out : ToolState × Except ValidationError SearchResults)
    (hdf : s.df = some d) (hkw : pyStrip kw = [])
    (h : ExecuteSearch col kw ic t m s out) :
    out = (s, Except.error ValidationError.emptyKeyword) := by
  cases h with
  | noData m s hnone => simp [hdf] at hnone
  | emptyKw m s d hd hk => rfl
  | exactMode s d hd hk => exact absurd hkw hk
  | containsMode s d hd hk => exact absurd hkw hk
  | fuzzyMode s d o hd hk hf => exact absurd hkw hk

/-- C8 witness: a whitespace-only keyword on a loaded one-row dataset in
exact mode; the hypotheses of the theorem are discharged concretely. -/
theorem C8_empty_keyword_witness :
    ((ToolState.mk (some [[Cell.na]]) none, Except.error ValidationError.emptyKeyword)
        : ToolState × Except ValidationError SearchResults)
      = (ToolState.mk (some [[Cell.na]]) none,
          Except.error ValidationError.emptyKeyword) :=
  C8_empty_keyword_fails_fast 0 (" ".toList) true 80 Mode.exact
    (ToolState.mk (some [[Cell.na]]) none) [[Cell.na]] _ rfl (by decide)
    (ExecuteSearch.emptyKw Mode.exact _ [[Cell.na]] rfl (by decide))

/-- C9: `execute_search` never changes the loaded dataset: on every path
(both error guards and all three modes) the post-state carries the same
`df` as the pre-state; the searches operate on copies
(`self.df[mask].copy()`, `self.df.loc[...].copy()`), and the only field
written is `search_results`. -/
theorem C9_dataset_unchanged (col : Nat) (kw : List Char) (ic : Bool) (t : Nat)
    (m : Mode) (s s2 : ToolState) (res : Except ValidationError SearchResults)
    (h : ExecuteSearch col kw ic t m s (s2, res)) :
    s2.df = s.df := by
  cases h <;> rfl

/-- C9 witness: an exact-mode search on a loaded one-row dataset leaves
the dataset field unchanged. -/
theorem C9_dataset_unchanged_witness :
    (withResults (ToolState.mk (some [[Cell.str ("a".toList)]]) none)
        (SearchResults.plain (exact_search true [[Cell.str ("a".toList)]] 0
          (pyStrip ("a".toList))))).df
      = (ToolState.mk (some [[Cell.str ("a".toList)]]) none).df :=
  C9_dataset_unchanged 0 ("a".toList) true 80 Mode.exact _ _ _
    (ExecuteSearch.exactMode _ [[Cell.str ("a".toList)]] rfl (by decide))
